import Mathlib

/-!
Verification of the MP3 chunk-extraction processor
(`src/processors/extract_mp3_chunks_diagnostics.py`).

The handler is a single-threaded loop that drives an external encoder
(ffmpeg) over successive 30-second windows, classifies each invocation's
result, and emits accepted segments as new records routed to `success`.

The embedding is a shallow one: the host runtime (flowfile session) and the
external tool are oracles.  A run is determined by

  * the input record (`FlowFile`: attribute list and uuid),
  * an environment `env : Nat → IterSpec` giving, for each loop index, the
    observable outcome of that iteration's tool invocation (exit code,
    captured stderr, whether the output artifact exists on disk and its
    size) together with where, if anywhere, the host raises an exception,
  * a fuel bound (the Python loop is `while True`; fuel exhaustion is
    recorded in the result rather than modelled as divergence).

Every observable action of the handler (log lines, record creation,
attribute writes, content writes, temp-file deletions, transfers, an
exception escaping to the host) is recorded in an event trace, and the
final on-disk temp files are recorded in `leaked`, so that ordering and
cleanup properties can be stated over traces.
-/

namespace ExtractMp3Chunks

/-- A flowfile: its string attributes and its uuid.  `getAttribute` returns
`none` for a missing attribute, mirroring the host API. -/
structure FlowFile where
  attrs : List (String × String)
  uuid : String
deriving DecidableEq

def FlowFile.getAttribute (ff : FlowFile) (name : String) : Option String :=
  (ff.attrs.find? (fun p => p.1 = name)).map Prod.snd

/-- Python truthiness of an optional string: `None` and `""` are falsy
(`if not source_link`, `original_filename and ...`, `... or ...`). -/
def falsy : Option String → Bool
  | none => true
  | some s => s.isEmpty

/-- Python `'.' in s`: whether the string contains a dot character. -/
def hasDot (s : String) : Bool := s.data.contains '.'

/-- The characters strictly before the last `'.'` of the list, or `none`
when the list has no `'.'`. -/
def beforeLastDot : List Char → Option (List Char)
  | [] => none
  | c :: cs =>
      match beforeLastDot cs with
      | some r => some (c :: r)
      | none => if c = '.' then some [] else none

/-- `s.rsplit('.', 1)[0]` (line 46): everything before the last dot, or
the whole string when it has no dot. -/
def stripExt (s : String) : String :=
  match beforeLastDot s.data with
  | some r => String.mk r
  | none => s

/-- Lines 33-42: `source_link = flowfile.getAttribute('idol.reference')`;
if falsy, `source_link = flowfile.getAttribute('filename') or
flowfile.getUuid()`. -/
def resolveSource (ff : FlowFile) : String :=
  match ff.getAttribute "idol.reference" with
  | some s =>
      if s.isEmpty then
        match ff.getAttribute "filename" with
        | some f => if f.isEmpty then ff.uuid else f
        | none => ff.uuid
      else s
  | none =>
      match ff.getAttribute "filename" with
      | some f => if f.isEmpty then ff.uuid else f
      | none => ff.uuid

/-- Line 46: `original_filename.rsplit('.', 1)[0] if original_filename and
'.' in original_filename else flowfile.getUuid()`. -/
def resolveBase (ff : FlowFile) : String :=
  match ff.getAttribute "filename" with
  | some f => if !f.isEmpty && hasDot f then stripExt f else ff.uuid
  | none => ff.uuid

/-- `f"{i:03d}"`: decimal, zero-padded on the left to width 3. -/
def pad3 (i : Nat) : String :=
  if i < 10 then "00" ++ toString i
  else if i < 100 then "0" ++ toString i
  else toString i

/-- Line 115: `f"{base_filename}_chunk_{segment_index:03d}.mp3"`. -/
def chunkFilename (base : String) (i : Nat) : String :=
  base ++ "_chunk_" ++ pad3 i ++ ".mp3"

/-- Line 120: `str(start_time)` where `start_time = segment_index * 30.0`.
`i * 30.0` is an exact float and CPython renders it positionally as
`"<i*30>.0"` for every index reachable in practice (`i * 30 < 10^16`);
the model uses that decimal rendering. -/
def startTimeStr (i : Nat) : String := toString (i * 30) ++ ".0"

/-- Observable actions of one run, in program order. -/
inductive Event
  | logStart
  | logNoneInput
  | logMissingReference
  | logBypass
  | removeInput
  | logExecuting (i : Nat)
  | logFinalSegment (i : Nat)
  | logFirstSegmentError (stderr : String)
  | logSmallSegment (i : Nat)
  | logExtracted (i : Nat) (size : Nat)
  | createRecord (i : Nat)
  | putAttribute (i : Nat) (name value : String)
  | writeContent (i : Nat)
  | deleteTemp (i : Nat)
  | logTransferred (i : Nat)
  | transfer (i : Nat) (relation : String)
  | logCritical (i : Nat)
  | raiseToHost
  | logNoSegments
  | logComplete (total : Nat)
  | logFinished
deriving DecidableEq

/-- Where, if anywhere, the host raises during the emission steps
(lines 112-136).  `raiseBeforeDelete` models a raise in the session calls
before the temp file is removed on line 131 (placed at `session.write`);
`raiseInTransfer` models a raise in `session.transfer` on line 136, after
the removal. -/
inductive EmitOutcome
  | ok
  | raiseBeforeDelete
  | raiseInTransfer
deriving DecidableEq

/-- Oracle for one loop iteration.
`allocRaises`: `getTempFile` (line 64, outside the `try`) raises.
`runRaises preFile`: `subprocess.run` (line 85, inside the `try`) raises,
with `preFile` the temp file present on disk at that moment, if any.
`result rc stderr artifact emit`: the tool completes with exit code `rc`,
captured stderr, and `artifact = some n` iff the output file exists with
size `n` bytes; `emit` says whether the host raises during emission. -/
inductive IterSpec
  | allocRaises
  | runRaises (preFile : Option Nat)
  | result (returncode : Int) (stderr : String) (artifact : Option Nat)
      (emit : EmitOutcome)
deriving DecidableEq

/-- The five attributes set on an accepted segment's record, in program
order (lines 117-121). -/
def attrPairs (base source : String) (i : Nat) : List (String × String) :=
  [("filename", chunkFilename base i),
   ("mime.type", "audio/mp3"),
   ("original.link", source),
   ("audio.chunk.start", startTimeStr i),
   ("audio.chunk.duration", "30.0")]

/-- Lines 112-121: `session.create()` followed by the five
`session.putAttribute` calls. -/
def recordSetup (base source : String) (i : Nat) : List Event :=
  Event.createRecord i ::
    (attrPairs base source i).map (fun p => Event.putAttribute i p.1 p.2)

/-- The full event block of an accepted, successfully emitted segment
(lines 70-138): log, extract-log, create/attributes, content write, temp
removal (line 131), transfer log and transfer to `success` (lines 135-136). -/
def okBlock (base source : String) (i n : Nat) : List Event :=
  [Event.logExecuting i, Event.logExtracted i n] ++ recordSetup base source i ++
  [Event.writeContent i, Event.deleteTemp i,
   Event.logTransferred i, Event.transfer i "success"]

/-- How one iteration ends: `next` advances `segment_index` and loops
(line 138); `stop` is `break` (lines 102, 107); `halt` is the `except`
handler's `return` (line 149); `uncaught` is an exception escaping the
handler (raised outside the `try`). -/
inductive Ctl
  | next
  | stop
  | halt
  | uncaught
deriving DecidableEq

/-- Result of one iteration: its events, the temp file it leaves on disk
(`some size`) if any, and how control proceeds. -/
structure IterOut where
  events : List Event
  fileLeft : Option Nat
  ctl : Ctl
deriving DecidableEq

/-- One iteration of the `while True` loop (lines 60-149) at index `i`,
under oracle `spec`.  Mirrors the source's classification exactly:

* line 92 `if result.returncode != 0`
* line 94 `if os.path.exists(p) and os.path.getsize(p) > 1024` →
  log "final file segment created", then `break` (line 102) — note the
  source breaks without emitting and without deleting the file;
* line 97 `elif segment_index == 0` → log stderr, `raise`, caught at
  line 140: log critical, delete the file if present, `return`;
* otherwise `break` (line 102) without deleting the file;
* line 105 `if not os.path.exists(p) or os.path.getsize(p) < 1024` →
  warn, `break` (line 107) without deleting the file;
* otherwise emit (lines 109-138), deleting the temp file on line 131;
  a raise anywhere in the `try` lands in the `except` (lines 140-149):
  log critical, delete the temp file if it still exists, `return`. -/
def iterate (spec : IterSpec) (i : Nat) (base source : String) : IterOut :=
  match spec with
  | IterSpec.allocRaises => ⟨[Event.raiseToHost], none, Ctl.uncaught⟩
  | IterSpec.runRaises preFile =>
      ⟨[Event.logExecuting i, Event.logCritical i] ++
         (match preFile with
          | some _ => [Event.deleteTemp i]
          | none => []),
       none, Ctl.halt⟩
  | IterSpec.result rc stderr artifact emit =>
      if rc ≠ 0 then
        match artifact with
        | some n =>
            if 1024 < n then
              ⟨[Event.logExecuting i, Event.logFinalSegment i], some n, Ctl.stop⟩
            else if i = 0 then
              ⟨[Event.logExecuting i, Event.logFirstSegmentError stderr,
                Event.logCritical i, Event.deleteTemp i], none, Ctl.halt⟩
            else
              ⟨[Event.logExecuting i], some n, Ctl.stop⟩
        | none =>
            if i = 0 then
              ⟨[Event.logExecuting i, Event.logFirstSegmentError stderr,
                Event.logCritical i], none, Ctl.halt⟩
            else
              ⟨[Event.logExecuting i], none, Ctl.stop⟩
      else
        match artifact with
        | none =>
            ⟨[Event.logExecuting i, Event.logSmallSegment i], none, Ctl.stop⟩
        | some n =>
            if n < 1024 then
              ⟨[Event.logExecuting i, Event.logSmallSegment i], some n, Ctl.stop⟩
            else
              match emit with
              | EmitOutcome.ok => ⟨okBlock base source i n, none, Ctl.next⟩
              | EmitOutcome.raiseBeforeDelete =>
                  ⟨[Event.logExecuting i, Event.logExtracted i n] ++
                     recordSetup base source i ++
                     [Event.logCritical i, Event.deleteTemp i],
                   none, Ctl.halt⟩
              | EmitOutcome.raiseInTransfer =>
                  ⟨[Event.logExecuting i, Event.logExtracted i n] ++
                     recordSetup base source i ++
                     [Event.writeContent i, Event.deleteTemp i,
                      Event.logTransferred i, Event.logCritical i],
                   none, Ctl.halt⟩

/-- Outcome of a whole run: the event trace, the temp files still on disk
when the handler returns (index and size), whether an exception escaped the
handler, whether the fuel bound was hit with the loop still running, whether
the loop exited by `break` (so the completion summary of lines 151-158
runs), and the final value of `segment_index`. -/
structure RunOut where
  events : List Event
  leaked : List (Nat × Nat)
  uncaught : Bool
  fuelOut : Bool
  completedStop : Bool
  nextIndex : Nat
deriving DecidableEq

/-- The temp file an iteration leaves on disk, tagged with its index. -/
def leakOf (i : Nat) : Option Nat → List (Nat × Nat)
  | some n => [(i, n)]
  | none => []

/-- The `while True` loop (lines 60-149), starting at `segment_index = i`,
bounded by `fuel`. -/
def loop (env : Nat → IterSpec) (base source : String) :
    Nat → Nat → RunOut
  | 0, i => ⟨[], [], false, true, false, i⟩
  | fuel + 1, i =>
      let it := iterate (env i) i base source
      match it.ctl with
      | Ctl.next =>
          let rest := loop env base source fuel (i + 1)
          ⟨it.events ++ rest.events, leakOf i it.fileLeft ++ rest.leaked,
           rest.uncaught, rest.fuelOut, rest.completedStop, rest.nextIndex⟩
      | Ctl.stop =>
          ⟨it.events, leakOf i it.fileLeft, false, false, true, i⟩
      | Ctl.halt =>
          ⟨it.events, leakOf i it.fileLeft, false, false, false, i⟩
      | Ctl.uncaught =>
          ⟨it.events, leakOf i it.fileLeft, true, false, false, i⟩

/-- Events of the code before the loop (lines 24-53): start log, the
error log when the reference attribute is falsy (line 35), the bypass log
(line 48), and the removal of the input record (line 53). -/
def leadEvents (ff : FlowFile) : List Event :=
  [Event.logStart] ++
  (if falsy (ff.getAttribute "idol.reference") then
     [Event.logMissingReference]
   else []) ++
  [Event.logBypass, Event.removeInput]

/-- Events of the completion summary (lines 151-158), which runs only when
the loop exited by `break`. -/
def postEvents (lr : RunOut) : List Event :=
  if lr.completedStop then
    (if lr.nextIndex = 0 then [Event.logNoSegments, Event.logFinished]
     else [Event.logComplete lr.nextIndex, Event.logFinished])
  else []

/-- The whole handler (lines 23-158).  `none` input: log and return
(lines 27-30).  Otherwise: resolve source and base name (lines 33-48,
logging an error when the reference attribute is falsy), remove the input
record (line 53), run the loop, and—when the loop exited by `break`—emit
the completion summary (lines 151-158; skipped on the `except` handler's
`return` and on an uncaught raise). -/
def handler (ff : Option FlowFile) (env : Nat → IterSpec) (fuel : Nat) :
    RunOut :=
  match ff with
  | none => ⟨[Event.logStart, Event.logNoneInput], [], false, false, false, 0⟩
  | some f =>
      let lr := loop env (resolveBase f) (resolveSource f) fuel 0
      ⟨leadEvents f ++ lr.events ++ postEvents lr, lr.leaked, lr.uncaught,
       lr.fuelOut, lr.completedStop, lr.nextIndex⟩

/-- The segment indices transferred to a relation, in trace order. -/
def emittedIndices (events : List Event) : List Nat :=
  events.filterMap (fun e =>
    match e with
    | Event.transfer i _ => some i
    | _ => none)

/-- An iteration oracle under which the segment is accepted and emitted
without incident: zero exit, artifact present with size at least 1024,
no host exception. -/
def okSpec (spec : IterSpec) : Prop :=
  ∃ e n, spec = IterSpec.result 0 e (some n) EmitOutcome.ok ∧ 1024 ≤ n

/-- The first `i` iterations of `env` all accept and emit. -/
def okRun (env : Nat → IterSpec) (i : Nat) : Prop :=
  ∀ j, j < i → okSpec (env j)

/-! ### Concrete fixtures used by witnesses and counterexamples -/

/-- A representative input record. -/
def ffW : FlowFile :=
  ⟨[("idol.reference", "/data/in.mpg"), ("filename", "in.mpg")], "uuid-1"⟩

/-- Tool succeeds with 2000-byte artifacts at indices 0-2, then returns a
non-zero exit code at index 3 while leaving a valid 2000-byte artifact. -/
def envFinalAt3 : Nat → IterSpec := fun i =>
  if i < 3 then IterSpec.result 0 "" (some 2000) EmitOutcome.ok
  else IterSpec.result 1 "read error" (some 2000) EmitOutcome.ok

/-- Tool exits 0 at index 0 but produces only a 500-byte artifact. -/
def envSmallAt0 : Nat → IterSpec := fun _ =>
  IterSpec.result 0 "" (some 500) EmitOutcome.ok

/-- One accepted 2000-byte segment at index 0, then a clean end of stream
(zero exit, no artifact) at index 1. -/
def envOneSegment : Nat → IterSpec := fun i =>
  if i = 0 then IterSpec.result 0 "" (some 2000) EmitOutcome.ok
  else IterSpec.result 0 "" none EmitOutcome.ok

/-- Temp-path allocation raises at index 0. -/
def envAllocRaises : Nat → IterSpec := fun _ => IterSpec.allocRaises

/-- Tool fails at index 0 leaving no artifact. -/
def envFatalAt0 : Nat → IterSpec := fun _ =>
  IterSpec.result 1 "cannot open input" none EmitOutcome.ok

/-- Zero exit with an artifact of exactly 1024 bytes at index 0, then end
of stream. -/
def envBoundaryOk : Nat → IterSpec := fun i =>
  if i = 0 then IterSpec.result 0 "" (some 1024) EmitOutcome.ok
  else IterSpec.result 0 "" none EmitOutcome.ok

/-- Non-zero exit with an artifact of exactly 1024 bytes at index 0. -/
def envBoundaryFail0 : Nat → IterSpec := fun _ =>
  IterSpec.result 1 "boundary" (some 1024) EmitOutcome.ok

/-- One accepted segment, then non-zero exit with an artifact of exactly
1024 bytes at index 1. -/
def envBoundaryFail1 : Nat → IterSpec := fun i =>
  if i = 0 then IterSpec.result 0 "" (some 2000) EmitOutcome.ok
  else IterSpec.result 1 "boundary" (some 1024) EmitOutcome.ok

/-! ### Iteration-level lemmas -/

lemma iterate_of_okSpec {spec : IterSpec} (i : Nat) (base source : String)
    (h : okSpec spec) :
    ∃ n, 1024 ≤ n ∧ (∃ e, spec = IterSpec.result 0 e (some n) EmitOutcome.ok) ∧
      iterate spec i base source = ⟨okBlock base source i n, none, Ctl.next⟩ := by
  obtain ⟨e, n, rfl, hn⟩ := h
  have hn' : ¬ n < 1024 := by omega
  exact ⟨n, hn, ⟨e, rfl⟩, by simp [iterate, hn']⟩

lemma transfer_iterate {spec : IterSpec} {i j : Nat} {base source rel : String}
    (h : Event.transfer j rel ∈ (iterate spec i base source).events) :
    j = i ∧ rel = "success" ∧ okSpec spec := by
  rcases spec with _ | pf | ⟨rc, e, a, em⟩
  · simp [iterate] at h
  · rcases pf with _ | m <;> simp [iterate] at h
  · by_cases hrc : rc = 0
    · subst hrc
      rcases a with _ | n
      · simp [iterate] at h
      · by_cases hn : n < 1024
        · simp [iterate, hn] at h
        · rcases em with _ | _ | _
          · simp [iterate, hn, okBlock, recordSetup, attrPairs] at h
            exact ⟨h.1, h.2, e, n, rfl, by omega⟩
          · simp [iterate, hn, recordSetup, attrPairs] at h
          · simp [iterate, hn, recordSetup, attrPairs] at h
    · rcases a with _ | n
      · by_cases hi : i = 0 <;> simp [iterate, hrc, hi] at h
      · by_cases hn : 1024 < n
        · simp [iterate, hrc, hn] at h
        · by_cases hi : i = 0 <;> simp [iterate, hrc, hn, hi] at h

lemma iterate_next_elim {spec : IterSpec} {i : Nat} {base source : String}
    (h : (iterate spec i base source).ctl = Ctl.next) : okSpec spec := by
  rcases spec with _ | pf | ⟨rc, e, a, em⟩
  · simp [iterate] at h
  · rcases pf with _ | m <;> simp [iterate] at h
  · by_cases hrc : rc = 0
    · subst hrc
      rcases a with _ | n
      · simp [iterate] at h
      · by_cases hn : n < 1024
        · simp [iterate, hn] at h
        · rcases em with _ | _ | _
          · exact ⟨e, n, rfl, by omega⟩
          · simp [iterate, hn] at h
          · simp [iterate, hn] at h
    · rcases a with _ | n
      · by_cases hi : i = 0 <;> simp [iterate, hrc, hi] at h
      · by_cases hn : 1024 < n
        · simp [iterate, hrc, hn] at h
        · by_cases hi : i = 0 <;> simp [iterate, hrc, hn, hi] at h

lemma fileLeft_of_not_stop {spec : IterSpec} {i : Nat} {base source : String}
    (h : (iterate spec i base source).ctl ≠ Ctl.stop) :
    (iterate spec i base source).fileLeft = none := by
  rcases spec with _ | pf | ⟨rc, e, a, em⟩
  · simp [iterate]
  · rcases pf with _ | m <;> simp [iterate]
  · by_cases hrc : rc = 0
    · subst hrc
      rcases a with _ | n
      · simp [iterate] at h
      · by_cases hn : n < 1024
        · simp [iterate, hn] at h
        · rcases em with _ | _ | _ <;> simp [iterate, hn]
    · rcases a with _ | n
      · by_cases hi : i = 0 <;> simp [iterate, hrc, hi] at h ⊢
      · by_cases hn : 1024 < n
        · simp [iterate, hrc, hn] at h
        · by_cases hi : i = 0 <;> simp [iterate, hrc, hn, hi] at h ⊢

lemma fileLeft_some_elim {spec : IterSpec} {i n : Nat} {base source : String}
    (h : (iterate spec i base source).fileLeft = some n) :
    (∃ rc e em, spec = IterSpec.result rc e (some n) em) ∧
      (iterate spec i base source).ctl = Ctl.stop := by
  rcases spec with _ | pf | ⟨rc, e, a, em⟩
  · simp [iterate] at h
  · rcases pf with _ | m <;> simp [iterate] at h
  · by_cases hrc : rc = 0
    · subst hrc
      rcases a with _ | m
      · simp [iterate] at h
      · by_cases hn : m < 1024
        · have hm : m = n := by simpa [iterate, hn] using h
          subst hm
          exact ⟨⟨0, e, em, rfl⟩, by simp [iterate, hn]⟩
        · rcases em with _ | _ | _ <;> simp [iterate, hn, okBlock] at h
    · rcases a with _ | m
      · by_cases hi : i = 0 <;> simp [iterate, hrc, hi] at h
      · by_cases hn : 1024 < m
        · have hm : m = n := by simpa [iterate, hrc, hn] using h
          subst hm
          exact ⟨⟨rc, e, em, rfl⟩, by simp [iterate, hrc, hn]⟩
        · by_cases hi : i = 0
          · simp [iterate, hrc, hn, hi] at h
          · have hm : m = n := by simpa [iterate, hrc, hn, hi] using h
            subst hm
            exact ⟨⟨rc, e, em, rfl⟩, by simp [iterate, hrc, hn, hi]⟩

lemma raise_iterate {spec : IterSpec} {i : Nat} {base source : String}
    (h : Event.raiseToHost ∈ (iterate spec i base source).events) :
    spec = IterSpec.allocRaises := by
  rcases spec with _ | pf | ⟨rc, e, a, em⟩
  · rfl
  · rcases pf with _ | m <;> simp [iterate] at h
  · exfalso
    by_cases hrc : rc = 0
    · subst hrc
      rcases a with _ | n
      · simp [iterate] at h
      · by_cases hn : n < 1024
        · simp [iterate, hn] at h
        · rcases em with _ | _ | _ <;>
            simp [iterate, hn, okBlock, recordSetup, attrPairs] at h
    · rcases a with _ | n
      · by_cases hi : i = 0 <;> simp [iterate, hrc, hi] at h
      · by_cases hn : 1024 < n
        · simp [iterate, hrc, hn] at h
        · by_cases hi : i = 0 <;> simp [iterate, hrc, hn, hi] at h

lemma uncaught_iterate {spec : IterSpec} {i : Nat} {base source : String}
    (h : (iterate spec i base source).ctl = Ctl.uncaught) :
    spec = IterSpec.allocRaises := by
  rcases spec with _ | pf | ⟨rc, e, a, em⟩
  · rfl
  · rcases pf with _ | m <;> simp [iterate] at h
  · exfalso
    by_cases hrc : rc = 0
    · subst hrc
      rcases a with _ | n
      · simp [iterate] at h
      · by_cases hn : n < 1024
        · simp [iterate, hn] at h
        · rcases em with _ | _ | _ <;> simp [iterate, hn] at h
    · rcases a with _ | n
      · by_cases hi : i = 0 <;> simp [iterate, hrc, hi] at h
      · by_cases hn : 1024 < n
        · simp [iterate, hrc, hn] at h
        · by_cases hi : i = 0 <;> simp [iterate, hrc, hn, hi] at h

lemma halt_iterate {spec : IterSpec} {i : Nat} {base source : String}
    (h : (iterate spec i base source).ctl = Ctl.halt) :
    Event.logCritical i ∈ (iterate spec i base source).events ∧
      (iterate spec i base source).fileLeft = none := by
  rcases spec with _ | pf | ⟨rc, e, a, em⟩
  · simp [iterate] at h
  · rcases pf with _ | m <;> simp [iterate]
  · by_cases hrc : rc = 0
    · subst hrc
      rcases a with _ | n
      · simp [iterate] at h
      · by_cases hn : n < 1024
        · simp [iterate, hn] at h
        · rcases em with _ | _ | _ <;>
            simp [iterate, hn, okBlock, recordSetup, attrPairs] at h ⊢
    · rcases a with _ | n
      · by_cases hi : i = 0 <;> simp [iterate, hrc, hi] at h ⊢
      · by_cases hn : 1024 < n
        · simp [iterate, hrc, hn] at h
        · by_cases hi : i = 0 <;> simp [iterate, hrc, hn, hi] at h ⊢

/-! ### Trace and loop-level lemmas -/

lemma emittedIndices_append (l₁ l₂ : List Event) :
    emittedIndices (l₁ ++ l₂) = emittedIndices l₁ ++ emittedIndices l₂ :=
  List.filterMap_append l₁ l₂ _

lemma emittedIndices_okBlock (base source : String) (i n : Nat) :
    emittedIndices (okBlock base source i n) = [i] := rfl

lemma emittedIndices_nil_of_no_transfer {l : List Event}
    (h : ∀ j rel, Event.transfer j rel ∉ l) : emittedIndices l = [] := by
  induction l with
  | nil => rfl
  | cons e t ih =>
    have ht : ∀ j rel, Event.transfer j rel ∉ t := by
      intro j rel hm
      exact h j rel (List.mem_cons_of_mem e hm)
    cases e
    case transfer i rel => exact absurd (List.mem_cons_self _ _) (h i rel)
    all_goals simpa [emittedIndices, List.filterMap_cons] using ih ht

lemma emitted_iterate_next {spec : IterSpec} {i : Nat} {base source : String}
    (h : (iterate spec i base source).ctl = Ctl.next) :
    emittedIndices (iterate spec i base source).events = [i] := by
  obtain ⟨n, _, ⟨e, rfl⟩, hit⟩ := iterate_of_okSpec i base source (iterate_next_elim h)
  rw [hit]
  exact emittedIndices_okBlock base source i n

lemma emitted_iterate_other {spec : IterSpec} {i : Nat} {base source : String}
    (h : (iterate spec i base source).ctl ≠ Ctl.next) :
    emittedIndices (iterate spec i base source).events = [] := by
  refine emittedIndices_nil_of_no_transfer ?_
  intro j rel hm
  obtain ⟨n, _, ⟨e, rfl⟩, hit⟩ := iterate_of_okSpec i base source (transfer_iterate hm).2.2
  rw [hit] at h
  exact h rfl

lemma mem_loop {env : Nat → IterSpec} {base source : String} :
    ∀ {fuel i : Nat} {e : Event}, e ∈ (loop env base source fuel i).events →
      ∃ j, i ≤ j ∧ e ∈ (iterate (env j) j base source).events := by
  intro fuel
  induction fuel with
  | zero => intro i e h; simp [loop] at h
  | succ f ih =>
    intro i e h
    rcases hctl : (iterate (env i) i base source).ctl with _ | _ | _ | _
    case next =>
      simp only [loop, hctl] at h
      rcases List.mem_append.mp h with hl | hr
      · exact ⟨i, le_refl i, hl⟩
      · obtain ⟨j, hij, hj⟩ := ih hr
        exact ⟨j, by omega, hj⟩
    all_goals
      simp only [loop, hctl] at h
      exact ⟨i, le_refl i, h⟩

lemma sub_append_left {l m : List Event} (x : List Event) (h : List.Sublist l m) :
    List.Sublist l (x ++ m) :=
  h.trans (List.sublist_append_right x m)

lemma sub_append_right {l m : List Event} (x : List Event) (h : List.Sublist l m) :
    List.Sublist l (m ++ x) :=
  h.trans (List.sublist_append_left m x)

lemma transfer_loop {env : Nat → IterSpec} {base source : String} :
    ∀ {fuel i j : Nat} {rel : String},
      Event.transfer j rel ∈ (loop env base source fuel i).events →
      rel = "success" ∧ i ≤ j ∧ ∃ n, 1024 ≤ n ∧
        (∃ e, env j = IterSpec.result 0 e (some n) EmitOutcome.ok) ∧
        List.Sublist (okBlock base source j n) (loop env base source fuel i).events := by
  intro fuel
  induction fuel with
  | zero => intro i j rel h; simp [loop] at h
  | succ f ih =>
    intro i j rel h
    rcases hctl : (iterate (env i) i base source).ctl with _ | _ | _ | _
    case next =>
      simp only [loop, hctl] at h ⊢
      rcases List.mem_append.mp h with hl | hr
      · obtain ⟨rfl, rfl, hok⟩ := transfer_iterate hl
        obtain ⟨n, hn, ⟨e, he⟩, hit⟩ := iterate_of_okSpec j base source hok
        refine ⟨rfl, le_refl j, n, hn, ⟨e, he⟩, ?_⟩
        have : List.Sublist (okBlock base source j n)
            (iterate (env j) j base source).events := by
          rw [hit]
        exact sub_append_right _ this
      · obtain ⟨hrel, hij, n, hn, hspec, hsub⟩ := ih hr
        exact ⟨hrel, by omega, n, hn, hspec, sub_append_left _ hsub⟩
    all_goals
      simp only [loop, hctl] at h
      obtain ⟨rfl, rfl, hok⟩ := transfer_iterate h
      obtain ⟨n, hn, ⟨e, he⟩, hit⟩ := iterate_of_okSpec j base source hok
      rw [hit] at hctl
      simp at hctl

lemma nextIndex_ge {env : Nat → IterSpec} {base source : String} :
    ∀ (fuel i : Nat), i ≤ (loop env base source fuel i).nextIndex := by
  intro fuel
  induction fuel with
  | zero => intro i; simp [loop]
  | succ f ih =>
    intro i
    rcases hctl : (iterate (env i) i base source).ctl with _ | _ | _ | _
    case next =>
      simp only [loop, hctl]
      exact le_trans (by omega) (ih (i + 1))
    all_goals simp [loop, hctl]

lemma emitted_loop {env : Nat → IterSpec} {base source : String} :
    ∀ (fuel i : Nat),
      emittedIndices (loop env base source fuel i).events =
        List.range' i ((loop env base source fuel i).nextIndex - i) := by
  intro fuel
  induction fuel with
  | zero => intro i; simp [loop, emittedIndices]
  | succ f ih =>
    intro i
    rcases hctl : (iterate (env i) i base source).ctl with _ | _ | _ | _
    case next =>
      simp only [loop, hctl]
      rw [emittedIndices_append, emitted_iterate_next hctl, ih (i + 1)]
      have hge := @nextIndex_ge env base source f (i + 1)
      have harith : (loop env base source f (i + 1)).nextIndex - i =
          ((loop env base source f (i + 1)).nextIndex - (i + 1)) + 1 := by omega
      rw [harith, List.range'_succ]
      rfl
    all_goals
      simp only [loop, hctl]
      rw [emitted_iterate_other (by rw [hctl]; simp)]
      simp

lemma leaked_loop {env : Nat → IterSpec} {base source : String} :
    ∀ (fuel i : Nat),
      (loop env base source fuel i).leaked.length ≤ 1 ∧
      ∀ p ∈ (loop env base source fuel i).leaked,
        (iterate (env p.1) p.1 base source).ctl = Ctl.stop ∧
        (iterate (env p.1) p.1 base source).fileLeft = some p.2 := by
  intro fuel
  induction fuel with
  | zero => intro i; simp [loop]
  | succ f ih =>
    intro i
    rcases hctl : (iterate (env i) i base source).ctl with _ | _ | _ | _
    case next =>
      simp only [loop, hctl]
      have hnone : (iterate (env i) i base source).fileLeft = none :=
        fileLeft_of_not_stop (by rw [hctl]; simp)
      rw [hnone]
      simpa [leakOf] using ih (i + 1)
    case stop =>
      simp only [loop, hctl]
      rcases hfl : (iterate (env i) i base source).fileLeft with _ | n
      · simp [leakOf]
      · refine ⟨by simp [leakOf], ?_⟩
        intro p hp
        simp [leakOf] at hp
        rw [hp]
        exact ⟨hctl, hfl⟩
    all_goals
      simp only [loop, hctl]
      have hnone : (iterate (env i) i base source).fileLeft = none :=
        fileLeft_of_not_stop (by rw [hctl]; simp)
      rw [hnone]
      simp [leakOf]

lemma uncaught_loop {env : Nat → IterSpec} {base source : String}
    (hne : ∀ i, env i ≠ IterSpec.allocRaises) :
    ∀ (fuel i : Nat), (loop env base source fuel i).uncaught = false := by
  intro fuel
  induction fuel with
  | zero => intro i; simp [loop]
  | succ f ih =>
    intro i
    rcases hctl : (iterate (env i) i base source).ctl with _ | _ | _ | _
    case next => simp only [loop, hctl]; exact ih (i + 1)
    case uncaught => exact absurd (uncaught_iterate hctl) (hne i)
    all_goals simp [loop, hctl]

lemma raise_loop {env : Nat → IterSpec} {base source : String}
    (hne : ∀ i, env i ≠ IterSpec.allocRaises) (fuel i : Nat) :
    Event.raiseToHost ∉ (loop env base source fuel i).events := by
  intro h
  obtain ⟨j, _, hj⟩ := mem_loop h
  exact hne j (raise_iterate hj)

lemma loop_decomp {env : Nat → IterSpec} {base source : String} :
    ∀ (n fuel i : Nat), (∀ j, j < n → okSpec (env (i + j))) → n ≤ fuel →
      ∃ pre, (loop env base source fuel i).events =
          pre ++ (loop env base source (fuel - n) (i + n)).events ∧
        emittedIndices pre = List.range' i n ∧
        (loop env base source fuel i).leaked =
          (loop env base source (fuel - n) (i + n)).leaked ∧
        (loop env base source fuel i).uncaught =
          (loop env base source (fuel - n) (i + n)).uncaught := by
  intro n
  induction n with
  | zero =>
    intro fuel i h hle
    exact ⟨[], by simp, by simp [emittedIndices], by simp, by simp⟩
  | succ m ih =>
    intro fuel i h hle
    obtain ⟨f, rfl⟩ : ∃ f, fuel = f + 1 := ⟨fuel - 1, by omega⟩
    have h0 : okSpec (env i) := by simpa using h 0 (by omega)
    obtain ⟨k, hk, ⟨e, he⟩, hit⟩ := iterate_of_okSpec i base source h0
    have hctl : (iterate (env i) i base source).ctl = Ctl.next := by rw [hit]
    have hfl : (iterate (env i) i base source).fileLeft = none := by rw [hit]
    have hsh : ∀ j, j < m → okSpec (env (i + 1 + j)) := by
      intro j hj
      have hj' := h (j + 1) (by omega)
      have : i + (j + 1) = i + 1 + j := by omega
      rwa [this] at hj'
    obtain ⟨pre, hev, hemit, hleak, hunc⟩ := ih f (i + 1) hsh (by omega)
    have e1 : f + 1 - (m + 1) = f - m := by omega
    have e2 : i + (m + 1) = i + 1 + m := by omega
    refine ⟨(iterate (env i) i base source).events ++ pre, ?_, ?_, ?_, ?_⟩
    · simp only [loop, hctl]
      rw [e1, e2, hev, List.append_assoc]
    · rw [emittedIndices_append, emitted_iterate_next hctl, hemit,
        List.range'_succ]
      rfl
    · simp only [loop, hctl]
      rw [hfl, e1, e2, hleak]
      rfl
    · simp only [loop, hctl]
      rw [e1, e2, hunc]

/-- Decomposition from index 0: after `n` accepted iterations the run
continues at index `n` with `n` segments emitted so far. -/
lemma loop_decomp0 {env : Nat → IterSpec} {base source : String}
    (n fuel : Nat) (h : okRun env n) (hle : n ≤ fuel) :
    ∃ pre, (loop env base source fuel 0).events =
        pre ++ (loop env base source (fuel - n) n).events ∧
      emittedIndices pre = List.range n ∧
      (loop env base source fuel 0).leaked =
        (loop env base source (fuel - n) n).leaked ∧
      (loop env base source fuel 0).uncaught =
        (loop env base source (fuel - n) n).uncaught := by
  obtain ⟨pre, hev, hemit, hleak, hunc⟩ :=
    loop_decomp n fuel 0 (by intro j hj; simpa using h j hj) hle
  rw [Nat.zero_add] at hev hleak hunc
  refine ⟨pre, hev, ?_, hleak, hunc⟩
  rw [hemit]
  exact (List.range_eq_range' n).symm

/-! ### Handler-level lemmas -/

lemma handler_some (ff : FlowFile) (env : Nat → IterSpec) (fuel : Nat) :
    handler (some ff) env fuel =
      ⟨leadEvents ff ++
         (loop env (resolveBase ff) (resolveSource ff) fuel 0).events ++
         postEvents (loop env (resolveBase ff) (resolveSource ff) fuel 0),
       (loop env (resolveBase ff) (resolveSource ff) fuel 0).leaked,
       (loop env (resolveBase ff) (resolveSource ff) fuel 0).uncaught,
       (loop env (resolveBase ff) (resolveSource ff) fuel 0).fuelOut,
       (loop env (resolveBase ff) (resolveSource ff) fuel 0).completedStop,
       (loop env (resolveBase ff) (resolveSource ff) fuel 0).nextIndex⟩ := rfl

lemma transfer_notMem_lead {ff : FlowFile} {j : Nat} {rel : String} :
    Event.transfer j rel ∉ leadEvents ff := by
  unfold leadEvents
  split_ifs <;> simp

lemma transfer_notMem_post {lr : RunOut} {j : Nat} {rel : String} :
    Event.transfer j rel ∉ postEvents lr := by
  unfold postEvents
  split_ifs <;> simp

lemma emitted_lead (ff : FlowFile) : emittedIndices (leadEvents ff) = [] :=
  emittedIndices_nil_of_no_transfer (fun _ _ => transfer_notMem_lead)

lemma emitted_post (lr : RunOut) : emittedIndices (postEvents lr) = [] :=
  emittedIndices_nil_of_no_transfer (fun _ _ => transfer_notMem_post)

lemma emitted_handler (ff : FlowFile) (env : Nat → IterSpec) (fuel : Nat) :
    emittedIndices (handler (some ff) env fuel).events =
      emittedIndices
        (loop env (resolveBase ff) (resolveSource ff) fuel 0).events := by
  rw [handler_some]
  simp only [emittedIndices_append, emitted_lead, emitted_post]
  simp

lemma mem_handler_elim {ff : FlowFile} {env : Nat → IterSpec} {fuel : Nat}
    {ev : Event} (h : ev ∈ (handler (some ff) env fuel).events) :
    ev ∈ leadEvents ff ∨
      ev ∈ (loop env (resolveBase ff) (resolveSource ff) fuel 0).events ∨
      ev ∈ postEvents (loop env (resolveBase ff) (resolveSource ff) fuel 0) := by
  rw [handler_some] at h
  simpa using h

lemma loop_sub_handler {ff : FlowFile} {env : Nat → IterSpec} {fuel : Nat}
    {l : List Event}
    (h : List.Sublist l (loop env (resolveBase ff) (resolveSource ff) fuel 0).events) :
    List.Sublist l (handler (some ff) env fuel).events := by
  rw [handler_some]
  exact sub_append_right _ (sub_append_left _ h)

lemma transfer_handler {ff : FlowFile} {env : Nat → IterSpec} {fuel j : Nat}
    {rel : String}
    (h : Event.transfer j rel ∈ (handler (some ff) env fuel).events) :
    rel = "success" ∧ ∃ n, 1024 ≤ n ∧
      (∃ e, env j = IterSpec.result 0 e (some n) EmitOutcome.ok) ∧
      List.Sublist (okBlock (resolveBase ff) (resolveSource ff) j n)
        ((handler (some ff) env fuel).events) := by
  rcases mem_handler_elim h with hl | hm | hp
  · exact absurd hl transfer_notMem_lead
  · obtain ⟨hrel, _, n, hn, hspec, hsub⟩ := transfer_loop hm
    exact ⟨hrel, n, hn, hspec, loop_sub_handler hsub⟩
  · exact absurd hp transfer_notMem_post

lemma putAttribute_recordSetup {b s : String} {i j : Nat} {k v : String}
    (h : Event.putAttribute j k v ∈ recordSetup b s i) :
    j = i ∧ (k, v) ∈ attrPairs b s i := by
  simp only [recordSetup, List.mem_cons, List.mem_map] at h
  rcases h with h | ⟨p, hp, heq⟩
  · exact absurd h (by simp)
  · have heq' : i = j ∧ p.1 = k ∧ p.2 = v := by simpa using heq
    obtain ⟨hij, hk, hv⟩ := heq'
    refine ⟨hij.symm, ?_⟩
    rw [← hk, ← hv]
    simpa using hp

lemma putAttribute_mem_block {b s : String} {i j n : Nat} {k v : String}
    {tail : List Event}
    (htail : Event.putAttribute j k v ∉ tail)
    (h : Event.putAttribute j k v ∈
      [Event.logExecuting i, Event.logExtracted i n] ++ recordSetup b s i ++ tail) :
    Event.putAttribute j k v ∈ recordSetup b s i := by
  rcases List.mem_append.mp h with h2 | h3
  · rcases List.mem_append.mp h2 with h4 | h5
    · simp at h4
    · exact h5
  · exact absurd h3 htail

lemma putAttribute_iterate {spec : IterSpec} {i j : Nat} {base source k v : String}
    (h : Event.putAttribute j k v ∈ (iterate spec i base source).events) :
    j = i ∧ (k, v) ∈ attrPairs base source i := by
  rcases spec with _ | pf | ⟨rc, e, a, em⟩
  · simp [iterate] at h
  · rcases pf with _ | m <;> simp [iterate] at h
  · by_cases hrc : rc = 0
    · subst hrc
      rcases a with _ | n
      · simp [iterate] at h
      · by_cases hn : n < 1024
        · simp [iterate, hn] at h
        · rcases em with _ | _ | _
          · have hev : (iterate (IterSpec.result 0 e (some n) EmitOutcome.ok)
                i base source).events =
                [Event.logExecuting i, Event.logExtracted i n] ++
                  recordSetup base source i ++
                  [Event.writeContent i, Event.deleteTemp i,
                    Event.logTransferred i, Event.transfer i "success"] := by
              simp [iterate, hn, okBlock]
            rw [hev] at h
            exact putAttribute_recordSetup (putAttribute_mem_block (by simp) h)
          · have hev : (iterate
                (IterSpec.result 0 e (some n) EmitOutcome.raiseBeforeDelete)
                i base source).events =
                [Event.logExecuting i, Event.logExtracted i n] ++
                  recordSetup base source i ++
                  [Event.logCritical i, Event.deleteTemp i] := by
              simp [iterate, hn]
            rw [hev] at h
            exact putAttribute_recordSetup (putAttribute_mem_block (by simp) h)
          · have hev : (iterate
                (IterSpec.result 0 e (some n) EmitOutcome.raiseInTransfer)
                i base source).events =
                [Event.logExecuting i, Event.logExtracted i n] ++
                  recordSetup base source i ++
                  [Event.writeContent i, Event.deleteTemp i,
                    Event.logTransferred i, Event.logCritical i] := by
              simp [iterate, hn]
            rw [hev] at h
            exact putAttribute_recordSetup (putAttribute_mem_block (by simp) h)
    · rcases a with _ | n
      · by_cases hi : i = 0 <;> simp [iterate, hrc, hi] at h
      · by_cases hn : 1024 < n
        · simp [iterate, hrc, hn] at h
        · by_cases hi : i = 0 <;> simp [iterate, hrc, hn, hi] at h

lemma putAttribute_notMem_lead {ff : FlowFile} {j : Nat} {k v : String} :
    Event.putAttribute j k v ∉ leadEvents ff := by
  unfold leadEvents
  split_ifs <;> simp

lemma putAttribute_notMem_post {lr : RunOut} {j : Nat} {k v : String} :
    Event.putAttribute j k v ∉ postEvents lr := by
  unfold postEvents
  split_ifs <;> simp

lemma putAttribute_handler {ff : FlowFile} {env : Nat → IterSpec}
    {fuel j : Nat} {k v : String}
    (h : Event.putAttribute j k v ∈ (handler (some ff) env fuel).events) :
    (k, v) ∈ attrPairs (resolveBase ff) (resolveSource ff) j := by
  rcases mem_handler_elim h with hl | hm | hp
  · exact absurd hl putAttribute_notMem_lead
  · obtain ⟨j', _, hj⟩ := mem_loop hm
    obtain ⟨rfl, hkv⟩ := putAttribute_iterate hj
    exact hkv
  · exact absurd hp putAttribute_notMem_post

lemma raise_notMem_lead {ff : FlowFile} : Event.raiseToHost ∉ leadEvents ff := by
  unfold leadEvents
  split_ifs <;> simp

lemma raise_notMem_post {lr : RunOut} : Event.raiseToHost ∉ postEvents lr := by
  unfold postEvents
  split_ifs <;> simp

lemma emitOrder_sub (b s : String) (j n : Nat) :
    List.Sublist
      (recordSetup b s j ++
        [Event.writeContent j, Event.deleteTemp j, Event.transfer j "success"])
      (okBlock b s j n) := by
  simp only [okBlock, recordSetup, attrPairs, List.map_cons, List.map_nil,
    List.cons_append, List.nil_append]
  apply List.Sublist.cons
  apply List.Sublist.cons
  apply List.Sublist.cons₂
  apply List.Sublist.cons₂
  apply List.Sublist.cons₂
  apply List.Sublist.cons₂
  apply List.Sublist.cons₂
  apply List.Sublist.cons₂
  apply List.Sublist.cons₂
  apply List.Sublist.cons₂
  apply List.Sublist.cons
  apply List.Sublist.cons₂
  exact List.Sublist.slnil

lemma recordSetup_sub_okBlock (b s : String) (j n : Nat) :
    List.Sublist (recordSetup b s j) (okBlock b s j n) := by
  unfold okBlock
  exact sub_append_right _ (sub_append_left _ (List.Sublist.refl _))

lemma mem_loop_to_handler {ff : FlowFile} {env : Nat → IterSpec} {fuel : Nat}
    {ev : Event}
    (h : ev ∈ (loop env (resolveBase ff) (resolveSource ff) fuel 0).events) :
    ev ∈ (handler (some ff) env fuel).events := by
  rw [handler_some]
  simp [h]

lemma createRecord_notMem_lead {ff : FlowFile} {j : Nat} :
    Event.createRecord j ∉ leadEvents ff := by
  unfold leadEvents
  split_ifs <;> simp

lemma createRecord_notMem_post {lr : RunOut} {j : Nat} :
    Event.createRecord j ∉ postEvents lr := by
  unfold postEvents
  split_ifs <;> simp

lemma removeInput_sub_lead (ff : FlowFile) :
    List.Sublist [Event.removeInput] (leadEvents ff) := by
  unfold leadEvents
  split_ifs <;> decide

/-- A run that performs `i` accepted iterations and then reaches an
iteration that does not advance: the emitted indices are exactly
`0, …, i-1` and every event of the stopping iteration appears in the
handler's trace. -/
lemma handler_run_to_stop {ff : FlowFile} {env : Nat → IterSpec} {fuel i : Nat}
    (hok : okRun env i) (hfl : i < fuel)
    (hne : (iterate (env i) i (resolveBase ff) (resolveSource ff)).ctl ≠ Ctl.next) :
    emittedIndices (handler (some ff) env fuel).events = List.range i ∧
    ∀ ev ∈ (iterate (env i) i (resolveBase ff) (resolveSource ff)).events,
      ev ∈ (handler (some ff) env fuel).events := by
  obtain ⟨pre, hev, hemit, hleak, hunc⟩ :=
    @loop_decomp0 env (resolveBase ff) (resolveSource ff) i fuel hok (by omega)
  obtain ⟨f, hf⟩ : ∃ f, fuel - i = f + 1 := ⟨fuel - i - 1, by omega⟩
  rw [hf] at hev
  have hloopev :
      (loop env (resolveBase ff) (resolveSource ff) (f + 1) i).events =
        (iterate (env i) i (resolveBase ff) (resolveSource ff)).events := by
    rcases hctl : (iterate (env i) i (resolveBase ff) (resolveSource ff)).ctl
      with _ | _ | _ | _
    · exact absurd hctl hne
    all_goals simp only [loop, hctl]
  constructor
  · rw [emitted_handler, hev, emittedIndices_append, hemit, hloopev,
      emitted_iterate_other hne]
    simp
  · intro ev hmem
    apply mem_loop_to_handler
    rw [hev]
    exact List.mem_append.mpr (Or.inr (by rw [hloopev]; exact hmem))

/-! ### Claims -/

/-- Claim C1.  The claim says a non-zero exit with a valid (at-threshold)
artifact is accepted and emitted before the loop stops, so that with
successes at indices 0-2 and a non-zero exit with a valid 2000-byte
artifact at index 3, four segments are emitted.  The code instead `break`s
at line 102 before reaching the emission steps, even though it has just
logged "final file segment created" and its comment says "Process this
final segment before breaking": only segments 0-2 are emitted, segment 3
is dropped (and its artifact is left on disk). -/
theorem C1_final_segment_dropped :
    emittedIndices (handler (some ffW) envFinalAt3 10).events = [0, 1, 2] ∧
    Event.logFinalSegment 3 ∈ (handler (some ffW) envFinalAt3 10).events ∧
    Event.transfer 3 "success" ∉ (handler (some ffW) envFinalAt3 10).events ∧
    (handler (some ffW) envFinalAt3 10).fuelOut = false ∧
    (handler (some ffW) envFinalAt3 10).leaked = [(3, 2000)] := by decide

/-- Claim C2, counterexample.  The claim says no temporary artifact file
exists on disk after any completed run.  A run whose first iteration exits
0 with a 500-byte artifact completes via the end-of-stream break at
line 107, which never deletes the file: the 500-byte temp file at index 0
remains on disk. -/
theorem C2_leak_cex :
    (handler (some ffW) envSmallAt0 3).leaked = [(0, 500)] ∧
    (handler (some ffW) envSmallAt0 3).fuelOut = false ∧
    (handler (some ffW) envSmallAt0 3).completedStop = true := by decide

/-- Claim C2, amended.  Accepted-segment, fatal and exception paths always
delete the current iteration's temp artifact, so at most one temp file can
remain after a run — and any remaining file belongs to the single
iteration at which the loop stopped via an end-of-stream `break`
(lines 102/107) while its artifact was still on disk. -/
theorem C2_cleanup (ff : FlowFile) (env : Nat → IterSpec) (fuel : Nat) :
    (handler (some ff) env fuel).leaked.length ≤ 1 ∧
    ∀ p ∈ (handler (some ff) env fuel).leaked,
      (∃ rc e em, env p.1 = IterSpec.result rc e (some p.2) em) ∧
      (iterate (env p.1) p.1 (resolveBase ff) (resolveSource ff)).ctl =
        Ctl.stop := by
  have hl := @leaked_loop env (resolveBase ff) (resolveSource ff) fuel 0
  have hfact : (handler (some ff) env fuel).leaked =
      (loop env (resolveBase ff) (resolveSource ff) fuel 0).leaked := rfl
  rw [hfact]
  refine ⟨hl.1, ?_⟩
  intro p hp
  obtain ⟨hstop, hfl⟩ := hl.2 p hp
  exact ⟨(fileLeft_some_elim hfl).1, hstop⟩

/-- Claim C2, witness for the amended theorem. -/
theorem C2_cleanup_wit :
    (handler (some ffW) envSmallAt0 3).leaked.length ≤ 1 ∧
    (iterate (envSmallAt0 0) 0 (resolveBase ffW) (resolveSource ffW)).ctl =
      Ctl.stop :=
  ⟨(C2_cleanup ffW envSmallAt0 3).1,
   ((C2_cleanup ffW envSmallAt0 3).2 (0, 500) (by decide)).2⟩

/-- Claim C3.  The emitted segment indices of any run form a contiguous
initial run `{0, …, k-1}`, in increasing order in the trace: an index is
advanced (line 138) only after its record was transferred (line 136). -/
theorem C3_contiguous_emission (ff : Option FlowFile) (env : Nat → IterSpec)
    (fuel : Nat) :
    ∃ k, emittedIndices (handler ff env fuel).events = List.range k := by
  rcases ff with _ | f
  · exact ⟨0, rfl⟩
  · refine ⟨(loop env (resolveBase f) (resolveSource f) fuel 0).nextIndex, ?_⟩
    rw [emitted_handler, emitted_loop]
    rw [Nat.sub_zero, List.range_eq_range']

/-- Claim C4, counterexample.  The claim says every unexpected exception
during an iteration's steps 1-4 — explicitly including temporary-path
allocation — is handled locally and never re-raised to the host.  But
`getTempFile` (line 64) sits outside the `try` block (line 69): an
exception there escapes the handler. -/
theorem C4_alloc_cex :
    (handler (some ffW) envAllocRaises 3).uncaught = true ∧
    Event.raiseToHost ∈ (handler (some ffW) envAllocRaises 3).events := by
  decide

/-- Claim C4, amended.  Any exception raised inside the `try` block (tool
invocation machinery, I/O, emission — spec steps 2-4) is handled locally:
nothing is re-raised to the host, and the halting iteration logs the
error and leaves no temp file behind.  An exception during temp-path
allocation (step 1) is the exception: it escapes to the host. -/
theorem C4_local_handling :
    (∀ (ff : FlowFile) (env : Nat → IterSpec) (fuel : Nat),
      (∀ i, env i ≠ IterSpec.allocRaises) →
      (handler (some ff) env fuel).uncaught = false ∧
      Event.raiseToHost ∉ (handler (some ff) env fuel).events) ∧
    (∀ (spec : IterSpec) (i : Nat) (base source : String),
      (iterate spec i base source).ctl = Ctl.halt →
      Event.logCritical i ∈ (iterate spec i base source).events ∧
      (iterate spec i base source).fileLeft = none) := by
  constructor
  · intro ff env fuel hne
    constructor
    · show (loop env (resolveBase ff) (resolveSource ff) fuel 0).uncaught = false
      exact uncaught_loop hne fuel 0
    · intro h
      rcases mem_handler_elim h with hl | hm | hp
      · exact raise_notMem_lead hl
      · exact raise_loop hne fuel 0 hm
      · exact raise_notMem_post hp
  · intro spec i base source hh
    exact halt_iterate hh

/-- Claim C4, witness for the amended theorem. -/
theorem C4_local_handling_wit :
    (handler (some ffW) envOneSegment 3).uncaught = false ∧
    Event.raiseToHost ∉ (handler (some ffW) envOneSegment 3).events :=
  C4_local_handling.1 ffW envOneSegment 3 (by
    intro i
    unfold envOneSegment
    split_ifs <;> simp)

/-- Claim C5.  If the tool returns a non-zero exit code at index 0 with no
artifact or one below the 1024-byte threshold, the run emits nothing, logs
the tool's stderr as a fatal first-segment error (line 99), and aborts —
the raised exception is caught at line 140, so nothing reaches the host. -/
theorem C5_fatal_first_segment (ff : FlowFile) (env : Nat → IterSpec)
    (fuel : Nat) (rc : Int) (e : String) (a : Option Nat) (em : EmitOutcome)
    (hfuel : 1 ≤ fuel) (henv : env 0 = IterSpec.result rc e a em)
    (hrc : rc ≠ 0) (ha : a = none ∨ ∃ n, a = some n ∧ n < 1024) :
    emittedIndices (handler (some ff) env fuel).events = [] ∧
    Event.logFirstSegmentError e ∈ (handler (some ff) env fuel).events ∧
    (handler (some ff) env fuel).uncaught = false := by
  have hctl : (iterate (env 0) 0 (resolveBase ff) (resolveSource ff)).ctl =
      Ctl.halt ∧
      Event.logFirstSegmentError e ∈
        (iterate (env 0) 0 (resolveBase ff) (resolveSource ff)).events := by
    rcases ha with rfl | ⟨n, rfl, hn⟩
    · rw [henv]; simp [iterate, hrc]
    · have h1 : ¬ (1024 : Nat) < n := by omega
      rw [henv]; simp [iterate, hrc, h1]
  have hok0 : okRun env 0 := fun j hj => absurd hj (by omega)
  have hne : (iterate (env 0) 0 (resolveBase ff) (resolveSource ff)).ctl ≠
      Ctl.next := by rw [hctl.1]; simp
  obtain ⟨hemit, hmem⟩ :=
    @handler_run_to_stop ff env fuel 0 hok0 (by omega) hne
  refine ⟨by simpa using hemit, hmem _ hctl.2, ?_⟩
  obtain ⟨pre, hev, he2, hleak, hunc⟩ :=
    @loop_decomp0 env (resolveBase ff) (resolveSource ff) 0 fuel hok0 (by omega)
  obtain ⟨f, hf⟩ : ∃ f, fuel - 0 = f + 1 := ⟨fuel - 1, by omega⟩
  rw [hf] at hunc
  show (loop env (resolveBase ff) (resolveSource ff) fuel 0).uncaught = false
  rw [hunc]
  simp only [loop, hctl.1]

/-- Claim C5, witness. -/
theorem C5_fatal_first_segment_wit :
    emittedIndices (handler (some ffW) envFatalAt0 3).events = [] ∧
    Event.logFirstSegmentError "cannot open input" ∈
      (handler (some ffW) envFatalAt0 3).events ∧
    (handler (some ffW) envFatalAt0 3).uncaught = false :=
  C5_fatal_first_segment ffW envFatalAt0 3 1 "cannot open input" none
    EmitOutcome.ok (by omega) rfl (by decide) (Or.inl rfl)

/-- Claim C6.  (1) A transferred segment always comes from an iteration
whose tool exited 0 with an artifact of at least 1024 bytes — a missing or
below-threshold artifact is never emitted, whatever the exit code.
(2) After `i` accepted iterations, a zero exit with a missing or too-small
artifact at index `i` logs the warning of line 106 and stops with exactly
segments `0, …, i-1` emitted.  (3) After `i > 0` accepted iterations, a
non-zero exit with no valid artifact at index `i` stops with exactly
segments `0, …, i-1` emitted. -/
theorem C6_invalid_never_emitted :
    (∀ (ff : FlowFile) (env : Nat → IterSpec) (fuel j : Nat) (rel : String),
      Event.transfer j rel ∈ (handler (some ff) env fuel).events →
      ∃ e n, env j = IterSpec.result 0 e (some n) EmitOutcome.ok ∧ 1024 ≤ n) ∧
    (∀ (ff : FlowFile) (env : Nat → IterSpec) (fuel i : Nat) (e : String)
        (a : Option Nat) (em : EmitOutcome),
      okRun env i → i < fuel → env i = IterSpec.result 0 e a em →
      (a = none ∨ ∃ n, a = some n ∧ n < 1024) →
      Event.logSmallSegment i ∈ (handler (some ff) env fuel).events ∧
      emittedIndices (handler (some ff) env fuel).events = List.range i) ∧
    (∀ (ff : FlowFile) (env : Nat → IterSpec) (fuel i : Nat) (rc : Int)
        (e : String) (a : Option Nat) (em : EmitOutcome),
      okRun env i → i < fuel → 0 < i → env i = IterSpec.result rc e a em →
      rc ≠ 0 → (a = none ∨ ∃ n, a = some n ∧ n < 1024) →
      emittedIndices (handler (some ff) env fuel).events = List.range i) := by
  refine ⟨?_, ?_, ?_⟩
  · intro ff env fuel j rel h
    obtain ⟨-, n, hn, ⟨e, he⟩, -⟩ := transfer_handler h
    exact ⟨e, n, he, hn⟩
  · intro ff env fuel i e a em hok hfl henv ha
    have hit : (iterate (env i) i (resolveBase ff) (resolveSource ff)).ctl =
        Ctl.stop ∧
        Event.logSmallSegment i ∈
          (iterate (env i) i (resolveBase ff) (resolveSource ff)).events := by
      rcases ha with rfl | ⟨n, rfl, hn⟩
      · rw [henv]; simp [iterate]
      · rw [henv]; simp [iterate, hn]
    have hne : (iterate (env i) i (resolveBase ff) (resolveSource ff)).ctl ≠
        Ctl.next := by rw [hit.1]; simp
    obtain ⟨hemit, hmem⟩ := handler_run_to_stop hok hfl hne
    exact ⟨hmem _ hit.2, hemit⟩
  · intro ff env fuel i rc e a em hok hfl hi henv hrc ha
    have hi0 : i ≠ 0 := by omega
    have hctl : (iterate (env i) i (resolveBase ff) (resolveSource ff)).ctl =
        Ctl.stop := by
      rcases ha with rfl | ⟨n, rfl, hn⟩
      · rw [henv]; simp [iterate, hrc, hi0]
      · have h1 : ¬ (1024 : Nat) < n := by omega
        rw [henv]; simp [iterate, hrc, h1, hi0]
    have hne : (iterate (env i) i (resolveBase ff) (resolveSource ff)).ctl ≠
        Ctl.next := by rw [hctl]; simp
    exact (handler_run_to_stop hok hfl hne).1

/-- Claim C6, witness (applies part (2) at a concrete run with a 500-byte
artifact at index 0). -/
theorem C6_invalid_never_emitted_wit :
    Event.logSmallSegment 0 ∈ (handler (some ffW) envSmallAt0 3).events ∧
    emittedIndices (handler (some ffW) envSmallAt0 3).events = List.range 0 :=
  C6_invalid_never_emitted.2.1 ffW envSmallAt0 3 0 "" (some 500)
    EmitOutcome.ok (fun j hj => absurd hj (by omega)) (by omega) rfl
    (Or.inr ⟨500, rfl, by omega⟩)

/-- Claim C7, counterexample.  The claim says the emitter's whole contract
— including handing the record to the success relation — completes before
the temp artifact is deleted.  In the code the deletion (line 131) runs
before `session.transfer` (line 136): in a successful one-segment run the
trace contains `deleteTemp 0` strictly before `transfer 0 "success"`, and
never the claimed order. -/
theorem C7_order_cex :
    Event.transfer 0 "success" ∈ (handler (some ffW) envOneSegment 3).events ∧
    ¬ List.Sublist [Event.transfer 0 "success", Event.deleteTemp 0]
        (handler (some ffW) envOneSegment 3).events ∧
    List.Sublist [Event.deleteTemp 0, Event.transfer 0 "success"]
        (handler (some ffW) envOneSegment 3).events := by decide

/-- Claim C7, amended.  For every emitted segment the trace contains, in
this order: the record's creation, the five attribute writes
(`recordSetup`), the content write, the deletion of the iteration's temp
artifact, and only then the handoff to the `success` relation — so
creation, all attribute writes and the content write complete before the
deletion, while the transfer happens after it, not before. -/
theorem C7_emit_order (ff : FlowFile) (env : Nat → IterSpec) (fuel j : Nat)
    (h : Event.transfer j "success" ∈ (handler (some ff) env fuel).events) :
    List.Sublist
      (recordSetup (resolveBase ff) (resolveSource ff) j ++
        [Event.writeContent j, Event.deleteTemp j, Event.transfer j "success"])
      (handler (some ff) env fuel).events := by
  obtain ⟨-, n, -, -, hsub⟩ := transfer_handler h
  exact (emitOrder_sub _ _ j n).trans hsub

/-- Claim C7, witness for the amended theorem. -/
theorem C7_emit_order_wit :
    List.Sublist
      (recordSetup (resolveBase ffW) (resolveSource ffW) 0 ++
        [Event.writeContent 0, Event.deleteTemp 0, Event.transfer 0 "success"])
      (handler (some ffW) envOneSegment 3).events :=
  C7_emit_order ffW envOneSegment 3 0 (by decide)

/-- Claim C8.  Every transferred record goes to the `success` relation and
was set up with exactly the five attributes of lines 115-121:
`filename = {base}_chunk_{i:03d}.mp3`, `mime.type = audio/mp3`,
`original.link` = the resolved source, `audio.chunk.start` = the decimal
string of `i * 30.0`, `audio.chunk.duration = "30.0"` — in that order
right after the record's creation, and no other attribute value is ever
written for that record. -/
theorem C8_record_attributes (ff : FlowFile) (env : Nat → IterSpec)
    (fuel j : Nat) (rel : String)
    (h : Event.transfer j rel ∈ (handler (some ff) env fuel).events) :
    rel = "success" ∧
    List.Sublist (recordSetup (resolveBase ff) (resolveSource ff) j)
      (handler (some ff) env fuel).events ∧
    ∀ k v, Event.putAttribute j k v ∈ (handler (some ff) env fuel).events →
      (k, v) ∈ attrPairs (resolveBase ff) (resolveSource ff) j := by
  obtain ⟨hrel, n, hn, hspec, hsub⟩ := transfer_handler h
  exact ⟨hrel, (recordSetup_sub_okBlock _ _ j n).trans hsub,
    fun k v hkv => putAttribute_handler hkv⟩

/-- Claim C8, witness. -/
theorem C8_record_attributes_wit :
    List.Sublist (recordSetup (resolveBase ffW) (resolveSource ffW) 0)
      (handler (some ffW) envOneSegment 3).events :=
  (C8_record_attributes ffW envOneSegment 3 0 "success" (by decide)).2.1

/-- An input record whose source-reference attribute is present but empty. -/
def ffEmptyRef : FlowFile :=
  ⟨[("idol.reference", ""), ("filename", "a.mpg")], "u1"⟩

/-- Claim C9, counterexample.  The claim says source resolution yields the
source-reference attribute's value, falling back only when the attribute
is absent.  The code's check is Python truthiness (`if not source_link`,
line 34): with the attribute present but equal to the empty string, the
code still falls back to the filename attribute instead of using the
attribute's value. -/
theorem C9_resolution_cex :
    ffEmptyRef.getAttribute "idol.reference" = some "" ∧
    resolveSource ffEmptyRef = "a.mpg" ∧ "a.mpg" ≠ "" := by decide

/-- Claim C9, amended.  Resolution treats an absent *or empty* attribute
as missing at each level: `source_location` is the source-reference
attribute when non-empty, else the filename attribute when non-empty
(with an error logged for the missing reference), else the uuid;
`base_name` is the filename with its final extension stripped at the last
`.` when the filename contains one, else the uuid; and the input record
is removed before any output record is created. -/
theorem C9_resolution :
    (∀ (ff : FlowFile) (s : String),
      ff.getAttribute "idol.reference" = some s → s.isEmpty = false →
      resolveSource ff = s) ∧
    (∀ (ff : FlowFile) (f : String),
      falsy (ff.getAttribute "idol.reference") = true →
      ff.getAttribute "filename" = some f → f.isEmpty = false →
      resolveSource ff = f) ∧
    (∀ ff : FlowFile,
      falsy (ff.getAttribute "idol.reference") = true →
      falsy (ff.getAttribute "filename") = true →
      resolveSource ff = ff.uuid) ∧
    (∀ (ff : FlowFile) (f : String),
      ff.getAttribute "filename" = some f → hasDot f = true →
      resolveBase ff = stripExt f) ∧
    (∀ ff : FlowFile,
      (ff.getAttribute "filename" = none ∨
        ∃ f, ff.getAttribute "filename" = some f ∧ hasDot f = false) →
      resolveBase ff = ff.uuid) ∧
    (∀ (ff : FlowFile) (env : Nat → IterSpec) (fuel : Nat),
      falsy (ff.getAttribute "idol.reference") = true →
      Event.logMissingReference ∈ (handler (some ff) env fuel).events) ∧
    (∀ (ff : FlowFile) (env : Nat → IterSpec) (fuel i : Nat),
      Event.createRecord i ∈ (handler (some ff) env fuel).events →
      List.Sublist [Event.removeInput, Event.createRecord i]
        (handler (some ff) env fuel).events) := by
  refine ⟨?_, ?_, ?_, ?_, ?_, ?_, ?_⟩
  · intro ff s h hs
    unfold resolveSource
    rw [h]
    simp [hs]
  · intro ff f hfal h hf
    unfold resolveSource
    rcases hr : ff.getAttribute "idol.reference" with _ | r
    · rw [h]
      simp [hf]
    · rw [hr] at hfal
      simp only [falsy] at hfal
      rw [h]
      simp [hfal, hf]
  · intro ff hfal hfile
    unfold resolveSource
    rcases hr : ff.getAttribute "idol.reference" with _ | r
    · rcases hn : ff.getAttribute "filename" with _ | f
      · rfl
      · rw [hn] at hfile
        simp only [falsy] at hfile
        simp [hfile]
    · rw [hr] at hfal
      simp only [falsy] at hfal
      rcases hn : ff.getAttribute "filename" with _ | f
      · simp [hfal]
      · rw [hn] at hfile
        simp only [falsy] at hfile
        simp [hfal, hfile]
  · intro ff f h hcont
    have hne : f.isEmpty = false := by
      cases hie : f.isEmpty
      · rfl
      · exfalso
        have hf0 : f = "" := (String.isEmpty_iff f).mp hie
        rw [hf0] at hcont
        exact absurd hcont (by decide)
    unfold resolveBase
    rw [h]
    simp [hne, hcont]
  · intro ff h
    unfold resolveBase
    rcases h with h | ⟨f, h, hcont⟩
    · rw [h]
    · rw [h]
      simp [hcont]
  · intro ff env fuel hfal
    rw [handler_some]
    have : Event.logMissingReference ∈ leadEvents ff := by
      unfold leadEvents
      rw [hfal]
      simp
    simp [this]
  · intro ff env fuel i h
    rcases mem_handler_elim h with hl | hm | hp
    · exact absurd hl createRecord_notMem_lead
    · rw [handler_some]
      have h1 : List.Sublist [Event.removeInput] (leadEvents ff) :=
        removeInput_sub_lead ff
      have h2 : List.Sublist [Event.createRecord i]
          (loop env (resolveBase ff) (resolveSource ff) fuel 0).events :=
        List.singleton_sublist.mpr hm
      exact sub_append_right _ (h1.append h2)
    · exact absurd hp createRecord_notMem_post

/-- Claim C9, witness for the amended theorem. -/
theorem C9_resolution_wit : resolveSource ffW = "/data/in.mpg" :=
  C9_resolution.1 ffW "/data/in.mpg" (by decide) (by decide)

/-- Claim C10.  The 1024-byte boundary is asymmetric: with a zero exit
code an artifact of exactly 1024 bytes passes the `< 1024` invalidity test
of line 105 and is emitted, while with a non-zero exit code the `> 1024`
test of line 94 rejects exactly 1024 bytes as a final segment — at index 0
the run goes fatal instead, and at a later index the loop stops without
the "final file segment created" classification. -/
theorem C10_threshold_boundary :
    (Event.transfer 0 "success" ∈ (handler (some ffW) envBoundaryOk 3).events ∧
      emittedIndices (handler (some ffW) envBoundaryOk 3).events = [0]) ∧
    (emittedIndices (handler (some ffW) envBoundaryFail0 3).events = [] ∧
      Event.logFinalSegment 0 ∉
        (handler (some ffW) envBoundaryFail0 3).events ∧
      Event.logFirstSegmentError "boundary" ∈
        (handler (some ffW) envBoundaryFail0 3).events) ∧
    (emittedIndices (handler (some ffW) envBoundaryFail1 3).events = [0] ∧
      Event.logFinalSegment 1 ∉
        (handler (some ffW) envBoundaryFail1 3).events) := by decide

end ExtractMp3Chunks

